import Mathlib

/-!
Shallow embedding of `src/main/process-manager.ts` (the `ProcessManager`
class) and verification of the specification claims about it.

The registry `Map<string, RunningProcess & {child}>` is modelled as an
insertion-ordered association list of entries; the asynchronous child
events (`exit`, `error`) are modelled as explicit state-transition
functions; the OS primitives (TCP bind probe, process spawn) are oracle
parameters supplied to the functions that consume them.
-/

namespace LocalGithub

/-- Outcome of one `net.createServer().listen(port, '127.0.0.1')` attempt:
either the `listening` event fires, or the `error` event fires with an
error object carrying a `code` string. -/
inductive BindResult where
  | listening : BindResult
  | errored (code : String) : BindResult
deriving DecidableEq, Repr

/-- `checkPort(port)`: resolves `-1` when the bind error code is
`'EADDRINUSE'`; resolves `port` on any other error and on success. -/
def checkPort (port : Nat) (r : BindResult) : Int :=
  match r with
  | .errored c => if c = "EADDRINUSE" then -1 else (port : Int)
  | .listening => (port : Int)

/-- A port counts as free for the allocator exactly when
`checkPort` resolves the port number itself. -/
def portFree (probe : Nat → BindResult) (p : Nat) : Bool :=
  decide (checkPort p (probe p) = (p : Int))

/-- The `for (let i = 1; i <= 100; i++)` retry loop of
`findAvailablePort`, entered at index `i`. -/
def findFrom (probe : Nat → BindResult) (startPort : Nat) (i : Nat) : Nat :=
  if h : i ≤ 100 then
    if checkPort (startPort + i) (probe (startPort + i)) = ((startPort + i : Nat) : Int) then
      startPort + i
    else
      findFrom probe startPort (i + 1)
  else
    startPort
termination_by 101 - i
decreasing_by omega

/-- `findAvailablePort(startPort)`: return `startPort` when its probe
resolves it, otherwise try `startPort+1 .. startPort+100`, otherwise
fall back to `startPort`. -/
def findAvailablePort (probe : Nat → BindResult) (startPort : Nat) : Nat :=
  if checkPort startPort (probe startPort) = (startPort : Int) then
    startPort
  else
    findFrom probe startPort 1

theorem checkPort_nonneg_or_neg_one (p : Nat) (r : BindResult) :
    checkPort p r = (p : Int) ∨ checkPort p r = -1 := by
  cases r with
  | listening => exact Or.inl rfl
  | errored c =>
    by_cases hc : c = "EADDRINUSE"
    · exact Or.inr (by simp [checkPort, hc])
    · exact Or.inl (by simp [checkPort, hc])

theorem portFree_true_iff (probe : Nat → BindResult) (p : Nat) :
    portFree probe p = true ↔ checkPort p (probe p) = (p : Int) := by
  simp [portFree]

theorem findFrom_range (probe : Nat → BindResult) (r : Nat) :
    ∀ n i, i + n = 101 →
      findFrom probe r i =
        match (List.range' i n).find? (fun j => portFree probe (r + j)) with
        | some j => r + j
        | none => r := by
  intro n
  induction n with
  | zero =>
    intro i h
    rw [findFrom]
    have hi : ¬ i ≤ 100 := by omega
    simp [hi]
  | succ n ih =>
    intro i h
    have hi : i ≤ 100 := by omega
    rw [findFrom, dif_pos hi, List.range'_succ]
    by_cases hp : portFree probe (r + i) = true
    · have hc : checkPort (r + i) (probe (r + i)) = ((r + i : Nat) : Int) :=
        (portFree_true_iff probe (r + i)).mp hp
      have hfind : List.find? (fun j => portFree probe (r + j)) (i :: List.range' (i + 1) n) =
          some i := List.find?_cons_of_pos _ (by simpa using hp)
      rw [if_pos hc, hfind]
    · have hc : ¬ checkPort (r + i) (probe (r + i)) = ((r + i : Nat) : Int) := by
        intro hcc
        exact hp ((portFree_true_iff probe (r + i)).mpr hcc)
      have hfind : List.find? (fun j => portFree probe (r + j)) (i :: List.range' (i + 1) n) =
          List.find? (fun j => portFree probe (r + j)) (List.range' (i + 1) n) :=
        List.find?_cons_of_neg _ (by simpa using hp)
      rw [if_neg hc, hfind]
      exact ih (i + 1) (by omega)

/-- C1: `findAvailablePort` returns the requested port when its probe
reports it available; otherwise it returns the first port among
`requestedPort+1 .. requestedPort+100` whose probe reports it available;
and when the requested port and all 100 successors are in use it falls
back to the requested port itself. -/
theorem findAvailablePort_allocation (probe : Nat → BindResult) (r : Nat) :
    findAvailablePort probe r =
      if portFree probe r then r
      else
        match (List.range' 1 100).find? (fun j => portFree probe (r + j)) with
        | some j => r + j
        | none => r := by
  by_cases hp : portFree probe r = true
  · have hc : checkPort r (probe r) = (r : Int) := (portFree_true_iff probe r).mp hp
    rw [findAvailablePort, if_pos hc, if_pos hp]
  · have hc : ¬ checkPort r (probe r) = (r : Int) := by
      intro hcc
      exact hp ((portFree_true_iff probe r).mpr hcc)
    rw [findAvailablePort, if_neg hc, if_neg hp]
    exact findFrom_range probe r 100 1 (by omega)

/-- C2: the probe reports a port unavailable only on the bind error code
`'EADDRINUSE'`; any other bind error, and a successful bind, make the
port count as available, so a probe error other than address-in-use
never prevents allocation of that port. -/
theorem checkPort_optimistic_policy (probe : Nat → BindResult) (p : Nat) :
    (portFree probe p = false ↔ probe p = .errored "EADDRINUSE") ∧
    (probe p ≠ .errored "EADDRINUSE" → findAvailablePort probe p = p) := by
  have hiff : portFree probe p = false ↔ probe p = .errored "EADDRINUSE" := by
    constructor
    · intro hfalse
      cases hr : probe p with
      | listening =>
        have : portFree probe p = true := by simp [portFree, checkPort, hr]
        rw [this] at hfalse
        exact absurd hfalse (by simp)
      | errored c =>
        by_cases hc : c = "EADDRINUSE"
        · rw [hc]
        · have : portFree probe p = true := by simp [portFree, checkPort, hr, hc]
          rw [this] at hfalse
          exact absurd hfalse (by simp)
    · intro hr
      have hneg : checkPort p (probe p) = -1 := by simp [checkPort, hr]
      simp only [portFree, hneg]
      have : ¬ ((-1 : Int) = (p : Int)) := by omega
      simp [this]
  refine ⟨hiff, ?_⟩
  intro hne
  have hfree : portFree probe p = true := by
    cases hb : portFree probe p
    · exact absurd (hiff.mp hb) hne
    · rfl
  rw [findAvailablePort, if_pos ((portFree_true_iff probe p).mp hfree)]

/-- Witness for C2 at a concrete input: an `'EACCES'` bind error on port
3000 still lets `findAvailablePort` allocate 3000. -/
theorem checkPort_optimistic_policy_witness :
    (fun _ : Nat => BindResult.errored "EACCES") 3000 ≠ .errored "EADDRINUSE" ∧
    findAvailablePort (fun _ => BindResult.errored "EACCES") 3000 = 3000 :=
  ⟨by decide, (checkPort_optimistic_policy (fun _ => BindResult.errored "EACCES") 3000).2 (by decide)⟩

/-- The literal `$PORT` placeholder matched by the regex `/\$PORT/g`. -/
def portPat : List Char := ['$', 'P', 'O', 'R', 'T']

/-- `command.replace(/\$PORT/g, rep)`: left-to-right, non-overlapping
global replacement of the literal `$PORT` by `rep`; the replacement is
not rescanned. -/
def replacePort (rep : List Char) : List Char → List Char
  | [] => []
  | '$' :: 'P' :: 'O' :: 'R' :: 'T' :: rest => rep ++ replacePort rep rest
  | c :: rest => c :: replacePort rep rest

/-- The substituted command string
`command.replace(/\$PORT/g, allocatedPort.toString())`. -/
def finalCommand (command : String) (allocatedPort : Nat) : String :=
  ⟨replacePort (Nat.repr allocatedPort).data command.data⟩

/-- `finalCommand.split(' ')`: split on every single space character
(the JavaScript one-character string separator, not general
whitespace). -/
def splitOnSpace (s : List Char) : List (List Char) :=
  match s with
  | [] => [[]]
  | c :: rest =>
    if c = ' ' then
      [] :: splitOnSpace rest
    else
      match splitOnSpace rest with
      | [] => [[c]]
      | t :: ts => (c :: t) :: ts

/-- The token list `finalCommand.split(' ')` as strings. -/
def commandTokens (command : String) (allocatedPort : Nat) : List String :=
  (splitOnSpace (finalCommand command allocatedPort).data).map (fun t => (⟨t⟩ : String))

/-- `const [executable, ...args]`: the first split token. -/
def executableOf (command : String) (allocatedPort : Nat) : String :=
  (commandTokens command allocatedPort).headD ""

/-- `const [executable, ...args]`: the remaining split tokens. -/
def argsOf (command : String) (allocatedPort : Nat) : List String :=
  (commandTokens command allocatedPort).tail

/-- `status` values of a managed process. -/
inductive ProcStatus where
  | running | stopped | error
deriving DecidableEq, Repr

/-- `type` values of a managed process. -/
inductive ProcType where
  | frontend | backend | other
deriving DecidableEq, Repr

/-- One registry entry: the `RunningProcess & { child }` record stored in
the `processes` map. `child = true` models a non-null `ChildProcess`
handle. -/
structure ProcEntry where
  id : String
  projectName : String
  command : String
  port : Nat
  pid : Option Nat
  status : ProcStatus
  output : List String
  startTime : Nat
  type : ProcType
  child : Bool
deriving DecidableEq, Repr

/-- The `RunningProcess` snapshot returned to callers (no `child`
field). -/
structure RunningProcess where
  id : String
  projectName : String
  command : String
  port : Nat
  pid : Option Nat
  status : ProcStatus
  output : List String
  startTime : Nat
  type : ProcType
deriving DecidableEq, Repr

/-- The field-by-field copy `startProcess`/`getProcess`/`getAllProcesses`
build from a registry entry. -/
def ProcEntry.snapshot (e : ProcEntry) : RunningProcess :=
  { id := e.id, projectName := e.projectName, command := e.command,
    port := e.port, pid := e.pid, status := e.status,
    output := e.output, startTime := e.startTime, type := e.type }

/-- The `ProcessManager` instance state: the insertion-ordered
`processes` map and the `nextProcessId` counter. -/
structure MState where
  processes : List ProcEntry
  nextProcessId : Nat
deriving Repr

/-- `this.processes.get(processId)`. -/
def lookupProc (st : MState) (pid : String) : Option ProcEntry :=
  st.processes.find? (fun e => e.id = pid)

/-- `getAllProcesses()`: a snapshot of every registry entry, in map
order. -/
def getAllProcesses (st : MState) : List RunningProcess :=
  st.processes.map ProcEntry.snapshot

/-- `getProcess(processId)`: snapshot of one entry, or `null`. -/
def getProcess (st : MState) (pid : String) : Option RunningProcess :=
  (lookupProc st pid).map ProcEntry.snapshot

/-- `` `process-${n}` ``: the id minted from the counter. -/
def procId (n : Nat) : String :=
  "process-" ++ Nat.repr n

/-- `this.processes.set(id, e)`: replace in place when the key exists,
append otherwise (JavaScript `Map` insertion order). -/
def mapSet (l : List ProcEntry) (e : ProcEntry) : List ProcEntry :=
  if l.any (fun x => x.id = e.id) then
    l.map (fun x => if x.id = e.id then e else x)
  else
    l ++ [e]

/-- Outcome of the `spawn(executable, args, {cwd, ...})` call: a child
handle carrying `child.pid` (`none` models `undefined`), or a
synchronous throw. -/
inductive SpawnRes where
  | ok (childPid : Option Nat)
  | thrown
deriving DecidableEq, Repr

/-- `child.pid || null`: `undefined` and the falsy pid `0` both become
`null`. -/
def pidOrNull (childPid : Option Nat) : Option Nat :=
  match childPid with
  | none => none
  | some k => if k = 0 then none else some k

/-- The `processData` record built by `startProcess` for a successful
spawn: freshly minted id, substituted command, allocated port,
`status = 'running'`, empty output, non-null child. -/
def newEntry (st : MState) (projectName command : String) (port : Nat)
    (type : ProcType) (probe : Nat → BindResult) (childPid : Option Nat)
    (now : Nat) : ProcEntry :=
  { id := procId st.nextProcessId, projectName := projectName,
    command := finalCommand command (findAvailablePort probe port),
    port := findAvailablePort probe port, pid := pidOrNull childPid,
    status := .running, output := [], startTime := now,
    type := type, child := true }

/-- `startProcess(projectName, command, cwd, port, type)`.  The TCP
probe and the spawn primitive are oracle parameters; `now` stands for
`new Date()`.  Returns the result (`Except.error ()` models the
re-thrown spawn exception) together with the updated state; note that
`nextProcessId` is incremented before the `try` block, so it advances
even when spawn throws. -/
def startProcess (st : MState) (projectName command cwd : String) (port : Nat)
    (type : ProcType) (probe : Nat → BindResult)
    (spawn : String → List String → String → SpawnRes) (now : Nat) :
    Except Unit RunningProcess × MState :=
  match spawn (executableOf command (findAvailablePort probe port))
      (argsOf command (findAvailablePort probe port)) cwd with
  | .thrown => (.error (), { st with nextProcessId := st.nextProcessId + 1 })
  | .ok childPid =>
    (.ok (newEntry st projectName command port type probe childPid now).snapshot,
     { processes := mapSet st.processes (newEntry st projectName command port type probe childPid now),
       nextProcessId := st.nextProcessId + 1 })

/-- The status the `exit` handler writes:
`code === 0 ? 'stopped' : 'error'`. -/
def exitStatus (code : Option Int) : ProcStatus :=
  if code = some 0 then .stopped else .error

/-- The mutation `processData.status = code === 0 ? 'stopped' : 'error'`
performed by the `exit` handler on the registered entry. -/
def applyExitStatus (st : MState) (pid : String) (code : Option Int) : MState :=
  { st with processes :=
      st.processes.map (fun e => if e.id = pid then { e with status := exitStatus code } else e) }

/-- `this.processes.delete(processId)`. -/
def removeProc (st : MState) (pid : String) : MState :=
  { st with processes := st.processes.filter (fun e => e.id != pid) }

/-- Delivery of the child `exit` event: set the terminal status, then
delete the entry from the registry. -/
def handleExit (st : MState) (pid : String) (code : Option Int) : MState :=
  removeProc (applyExitStatus st pid code) pid

/-- Delivery of the child `error` event: set `status = 'error'`; the
handler performs no registry deletion. -/
def handleError (st : MState) (pid : String) : MState :=
  { st with processes :=
      st.processes.map (fun e => if e.id = pid then { e with status := .error } else e) }

/-- `stopProcess(processId)`: `(returned boolean, kill signals sent,
new state)`.  Returns `false` and changes nothing when the id is not
registered or its child handle is null; otherwise kills the child,
sets `status = 'stopped'` and returns `true`. -/
def stopProcess (st : MState) (pid : String) : Bool × List String × MState :=
  match st.processes.find? (fun e => e.id = pid) with
  | none => (false, [], st)
  | some e =>
    if e.child then
      (true, [pid],
        { st with processes :=
            st.processes.map (fun x => if x.id = pid then { x with status := .stopped } else x) })
    else
      (false, [], st)

/-- `stopAllProcesses()`: `(kill signals sent, entries as mutated just
before the clear, new state)`.  Each entry with a live child is killed
and marked `stopped`, then the whole map is cleared. -/
def stopAllProcesses (st : MState) : List String × List ProcEntry × MState :=
  ((st.processes.filter (fun e => e.child)).map (fun e => e.id),
   st.processes.map (fun e => if e.child then { e with status := .stopped } else e),
   { st with processes := [] })

theorem find_map_update (l : List ProcEntry) (pid : String) (f : ProcEntry → ProcEntry)
    (hf : ∀ e, (f e).id = e.id) :
    (l.map (fun e => if e.id = pid then f e else e)).find? (fun e => e.id = pid) =
      (l.find? (fun e => e.id = pid)).map f := by
  induction l with
  | nil => rfl
  | cons c rest ih =>
    by_cases hc : c.id = pid
    · simp only [List.map_cons, if_pos hc]
      have h1 : (f c).id = pid := by rw [hf c]; exact hc
      rw [List.find?_cons_of_pos _ (by simp [h1]), List.find?_cons_of_pos _ (by simp [hc])]
      rfl
    · simp only [List.map_cons, if_neg hc]
      rw [List.find?_cons_of_neg _ (by simp [hc]), List.find?_cons_of_neg _ (by simp [hc])]
      exact ih

theorem find_map_update_ne (l : List ProcEntry) (pid q : String) (f : ProcEntry → ProcEntry)
    (hf : ∀ e, (f e).id = e.id) (hq : q ≠ pid) :
    (l.map (fun e => if e.id = pid then f e else e)).find? (fun e => e.id = q) =
      l.find? (fun e => e.id = q) := by
  induction l with
  | nil => rfl
  | cons c rest ih =>
    by_cases hc : c.id = pid
    · have h1 : (f c).id = pid := by rw [hf c]; exact hc
      have h2 : ¬ (f c).id = q := by rw [h1]; exact fun hcontra => hq hcontra.symm
      have h3 : ¬ c.id = q := by rw [hc]; exact fun hcontra => hq hcontra.symm
      simp only [List.map_cons, if_pos hc]
      rw [List.find?_cons_of_neg _ (by simp [h2]), List.find?_cons_of_neg _ (by simp [h3])]
      exact ih
    · simp only [List.map_cons, if_neg hc]
      by_cases hcq : c.id = q
      · rw [List.find?_cons_of_pos _ (by simp [hcq]), List.find?_cons_of_pos _ (by simp [hcq])]
      · rw [List.find?_cons_of_neg _ (by simp [hcq]), List.find?_cons_of_neg _ (by simp [hcq])]
        exact ih

theorem find_filter_self (l : List ProcEntry) (pid : String) :
    (l.filter (fun e => e.id != pid)).find? (fun e => e.id = pid) = none := by
  rw [List.find?_eq_none]
  intro x hx
  have hmem := (List.mem_filter.mp hx).2
  simp only [bne_iff_ne, ne_eq] at hmem
  simp [hmem]

/-- C3: delivering the child `exit` event for a registered process with
code 0 sets its status to `stopped`, and with a nonzero code to
`error`; in both cases the entry is removed from the registry, so it no
longer appears in `getAllProcesses()`. -/
theorem exit_event_terminal (st : MState) (pid : String) (code : Option Int) (e : ProcEntry)
    (h : lookupProc st pid = some e) :
    (code = some 0 →
      lookupProc (applyExitStatus st pid code) pid = some { e with status := .stopped }) ∧
    (∀ k : Int, code = some k → k ≠ 0 →
      lookupProc (applyExitStatus st pid code) pid = some { e with status := .error }) ∧
    lookupProc (handleExit st pid code) pid = none ∧
    (∀ rp ∈ getAllProcesses (handleExit st pid code), rp.id ≠ pid) := by
  unfold lookupProc at h
  have hupd : lookupProc (applyExitStatus st pid code) pid =
      some { e with status := exitStatus code } := by
    unfold lookupProc applyExitStatus
    rw [find_map_update st.processes pid
      (fun x => { x with status := exitStatus code }) (fun x => rfl), h]
    rfl
  refine ⟨?_, ?_, ?_, ?_⟩
  · intro h0
    rw [hupd]
    simp [exitStatus, h0]
  · intro k hk hkne
    rw [hupd]
    have : exitStatus code = .error := by
      subst hk
      simp [exitStatus, hkne]
    rw [this]
  · unfold handleExit removeProc lookupProc
    exact find_filter_self _ pid
  · intro rp hrp
    unfold getAllProcesses handleExit removeProc at hrp
    obtain ⟨x, hx, hxs⟩ := List.mem_map.mp hrp
    have hid := (List.mem_filter.mp hx).2
    simp only [bne_iff_ne, ne_eq] at hid
    rw [← hxs]
    exact hid

/-- A concrete registered process used to instantiate the theorems. -/
def sampleEntry : ProcEntry :=
  { id := "process-1", projectName := "demo", command := "npm start",
    port := 3000, pid := some 42, status := .running, output := [],
    startTime := 0, type := .frontend, child := true }

/-- A registry holding exactly `sampleEntry`. -/
def sampleState : MState :=
  { processes := [sampleEntry], nextProcessId := 2 }

/-- Witness for C3 at a concrete input. -/
theorem exit_event_terminal_witness :
    lookupProc sampleState "process-1" = some sampleEntry ∧
    lookupProc (handleExit sampleState "process-1" (some 0)) "process-1" = none :=
  ⟨by decide,
   (exit_event_terminal sampleState "process-1" (some 0) sampleEntry (by decide)).2.2.1⟩

/-- C4 counterexample: delivering the child `error` event to a
registered process sets its status to `error` but does NOT remove the
entry from the registry, refuting the claim that the error-event path
removes the process. -/
theorem error_event_entry_not_removed :
    lookupProc (handleError sampleState "process-1") "process-1" =
      some { sampleEntry with status := .error } ∧
    getAllProcesses (handleError sampleState "process-1") ≠ [] := by
  constructor
  · decide
  · decide

/-- C4 (amended): only the `exit` event removes a process from the live
registry; the `error` event sets status `error` but keeps the entry
registered, and an explicit `stopProcess` keeps the entry registered
with status `stopped` until the eventual exit event. -/
theorem terminal_removal_only_via_exit (st : MState) (pid : String) (code : Option Int)
    (e : ProcEntry) (h : lookupProc st pid = some e) :
    lookupProc (handleExit st pid code) pid = none ∧
    lookupProc (handleError st pid) pid = some { e with status := .error } ∧
    (e.child = true →
      lookupProc (stopProcess st pid).2.2 pid = some { e with status := .stopped }) := by
  unfold lookupProc at h
  refine ⟨?_, ?_, ?_⟩
  · unfold handleExit removeProc lookupProc
    exact find_filter_self _ pid
  · unfold handleError lookupProc
    rw [find_map_update st.processes pid
      (fun x => { x with status := .error }) (fun x => rfl), h]
    rfl
  · intro hchild
    have hstop : stopProcess st pid =
        (true, [pid],
          { st with processes :=
              st.processes.map (fun x => if x.id = pid then { x with status := .stopped } else x) }) := by
      unfold stopProcess
      rw [h]
      simp [hchild]
    have hstop22 : (stopProcess st pid).2.2 =
        { st with processes :=
            st.processes.map (fun x => if x.id = pid then { x with status := .stopped } else x) } := by
      rw [hstop]
    rw [hstop22]
    unfold lookupProc
    rw [find_map_update st.processes pid
      (fun x => { x with status := .stopped }) (fun x => rfl), h]
    rfl

/-- Witness for C4 (amended) at a concrete input. -/
theorem terminal_removal_only_via_exit_witness :
    lookupProc sampleState "process-1" = some sampleEntry ∧
    lookupProc (handleExit sampleState "process-1" none) "process-1" = none ∧
    lookupProc (handleError sampleState "process-1") "process-1" =
      some { sampleEntry with status := .error } := by
  have h := terminal_removal_only_via_exit sampleState "process-1" none sampleEntry (by decide)
  exact ⟨by decide, h.1, h.2.1⟩

/-- C8: `stopProcess` on a registered id with a live child returns
`true`, sends the kill signal, immediately sets that entry's status to
`stopped`, and leaves every other entry unchanged; on an unknown or
already-removed id it returns `false` and changes nothing. -/
theorem stopProcess_live_and_unknown (st : MState) (pid : String) :
    (∀ e, lookupProc st pid = some e → e.child = true →
      (stopProcess st pid).1 = true ∧
      (stopProcess st pid).2.1 = [pid] ∧
      lookupProc (stopProcess st pid).2.2 pid = some { e with status := .stopped } ∧
      (∀ q, q ≠ pid → lookupProc (stopProcess st pid).2.2 q = lookupProc st q)) ∧
    (lookupProc st pid = none → stopProcess st pid = (false, [], st)) := by
  constructor
  · intro e he hchild
    unfold lookupProc at he
    have hstop : stopProcess st pid =
        (true, [pid],
          { st with processes :=
              st.processes.map (fun x => if x.id = pid then { x with status := .stopped } else x) }) := by
      unfold stopProcess
      rw [he]
      simp [hchild]
    have hstop22 : (stopProcess st pid).2.2 =
        { st with processes :=
            st.processes.map (fun x => if x.id = pid then { x with status := .stopped } else x) } := by
      rw [hstop]
    refine ⟨by rw [hstop], by rw [hstop], ?_, ?_⟩
    · rw [hstop22]
      unfold lookupProc
      rw [find_map_update st.processes pid
        (fun x => { x with status := .stopped }) (fun x => rfl), he]
      rfl
    · intro q hq
      rw [hstop22]
      unfold lookupProc
      exact find_map_update_ne st.processes pid q
        (fun x => { x with status := .stopped }) (fun x => rfl) hq
  · intro hnone
    unfold lookupProc at hnone
    unfold stopProcess
    rw [hnone]

/-- Witness for C8 at a concrete input. -/
theorem stopProcess_live_and_unknown_witness :
    (stopProcess sampleState "process-1").1 = true ∧
    (stopProcess sampleState "process-1").2.1 = ["process-1"] ∧
    lookupProc (stopProcess sampleState "process-1").2.2 "process-1" =
      some { sampleEntry with status := .stopped } := by
  have h := (stopProcess_live_and_unknown sampleState "process-1").1 sampleEntry
    (by decide) (by decide)
  exact ⟨h.1, h.2.1, h.2.2.1⟩

/-- C9: `stopAllProcesses` sends a kill signal to every registered
process, marks each one `stopped`, and clears the registry, so
`getAllProcesses()` is empty afterwards. -/
theorem stopAllProcesses_clears (st : MState)
    (h : ∀ e ∈ st.processes, e.child = true) :
    (stopAllProcesses st).1 = st.processes.map (fun e => e.id) ∧
    (∀ e ∈ (stopAllProcesses st).2.1, e.status = .stopped) ∧
    ((stopAllProcesses st).2.1).map (fun e => e.id) = st.processes.map (fun e => e.id) ∧
    (stopAllProcesses st).2.2.processes = [] ∧
    getAllProcesses (stopAllProcesses st).2.2 = [] := by
  refine ⟨?_, ?_, ?_, rfl, rfl⟩
  · unfold stopAllProcesses
    have : st.processes.filter (fun e => e.child) = st.processes :=
      List.filter_eq_self.mpr h
    rw [this]
  · intro e he
    unfold stopAllProcesses at he
    obtain ⟨x, hx, hxs⟩ := List.mem_map.mp he
    have hchild := h x hx
    rw [← hxs, if_pos hchild]
  · unfold stopAllProcesses
    rw [List.map_map]
    refine List.map_congr_left ?_
    intro x _
    by_cases hc : x.child = true
    · simp [hc]
    · simp [hc]

/-- A second concrete registered process. -/
def sampleEntry2 : ProcEntry :=
  { id := "process-2", projectName := "api", command := "npm run api",
    port := 5000, pid := some 43, status := .running, output := [],
    startTime := 1, type := .backend, child := true }

/-- A registry holding two processes. -/
def sampleState2 : MState :=
  { processes := [sampleEntry, sampleEntry2], nextProcessId := 3 }

/-- Witness for C9 at a concrete input with two processes. -/
theorem stopAllProcesses_clears_witness :
    (stopAllProcesses sampleState2).1 = ["process-1", "process-2"] ∧
    getAllProcesses (stopAllProcesses sampleState2).2.2 = [] := by
  have h := stopAllProcesses_clears sampleState2 (by decide)
  refine ⟨?_, h.2.2.2.2⟩
  rw [h.1]
  decide

/-- C10: the boolean result of `stopProcess` depends only on registry
membership and a non-null child handle, never on the current status; in
particular an entry whose status is already `stopped` still yields
`true` and a re-sent kill signal. -/
theorem stopProcess_ignores_status (st : MState) (pid : String) :
    ((stopProcess st pid).1 = true ↔
      ∃ e, lookupProc st pid = some e ∧ e.child = true) ∧
    (∀ e, lookupProc st pid = some e → e.child = true → e.status = .stopped →
      (stopProcess st pid).1 = true ∧ (stopProcess st pid).2.1 = [pid]) := by
  cases hfind : st.processes.find? (fun x => x.id = pid) with
  | none =>
    constructor
    · constructor
      · intro habs
        unfold stopProcess at habs
        rw [hfind] at habs
        exact absurd habs (by simp)
      · rintro ⟨e, he, -⟩
        unfold lookupProc at he
        rw [hfind] at he
        exact absurd he (by simp)
    · intro e he
      unfold lookupProc at he
      rw [hfind] at he
      exact absurd he (by simp)
  | some e0 =>
    cases hch : e0.child with
    | false =>
      constructor
      · constructor
        · intro habs
          unfold stopProcess at habs
          rw [hfind] at habs
          simp only [hch] at habs
          exact absurd habs (by simp)
        · rintro ⟨e, he, hc⟩
          unfold lookupProc at he
          rw [hfind] at he
          have : e0 = e := by injection he
          rw [← this] at hc
          rw [hch] at hc
          exact absurd hc (by simp)
      · intro e he hc
        unfold lookupProc at he
        rw [hfind] at he
        have : e0 = e := by injection he
        rw [← this] at hc
        rw [hch] at hc
        exact absurd hc (by simp)
    | true =>
      have hstop : (stopProcess st pid).1 = true ∧ (stopProcess st pid).2.1 = [pid] := by
        unfold stopProcess
        rw [hfind]
        simp [hch]
      constructor
      · constructor
        · intro _
          exact ⟨e0, by unfold lookupProc; rw [hfind], hch⟩
        · intro _
          exact hstop.1
      · intro e _ _ _
        exact hstop

/-- A concrete registered process whose status is already `stopped`. -/
def stoppedEntry : ProcEntry :=
  { sampleEntry with id := "process-9", status := .stopped }

/-- A registry holding `stoppedEntry`. -/
def stoppedState : MState :=
  { processes := [stoppedEntry], nextProcessId := 10 }

/-- Witness for C10 at a concrete input whose status is already
`stopped`. -/
theorem stopProcess_ignores_status_witness :
    (stopProcess stoppedState "process-9").1 = true ∧
    (stopProcess stoppedState "process-9").2.1 = ["process-9"] :=
  (stopProcess_ignores_status stoppedState "process-9").2 stoppedEntry
    (by decide) (by decide) (by decide)

theorem mapSet_fresh (l : List ProcEntry) (e : ProcEntry)
    (h : ∀ x ∈ l, x.id ≠ e.id) : mapSet l e = l ++ [e] := by
  unfold mapSet
  have hany : l.any (fun x => x.id = e.id) = false := by
    rw [List.any_eq_false]
    intro x hx
    simp [h x hx]
  rw [hany]
  simp

/-- C5: a successful `startProcess` returns a snapshot with
`status = 'running'` and the allocated port; afterwards the registry
holds exactly one new entry, under a freshly minted id not used before,
with the same status and port; and when the spawn call throws
synchronously, the result is the re-thrown error and no entry is
registered. -/
theorem startProcess_registration (st : MState) (projectName command cwd : String)
    (port : Nat) (type : ProcType) (probe : Nat → BindResult)
    (spawn : String → List String → String → SpawnRes) (now : Nat)
    (hfresh : ∀ e ∈ st.processes, e.id ≠ procId st.nextProcessId) :
    (∀ cp, spawn (executableOf command (findAvailablePort probe port))
        (argsOf command (findAvailablePort probe port)) cwd = .ok cp →
      ∃ snap,
        (startProcess st projectName command cwd port type probe spawn now).1 = .ok snap ∧
        snap.status = .running ∧
        snap.port = findAvailablePort probe port ∧
        snap.id = procId st.nextProcessId ∧
        (∀ e ∈ st.processes, e.id ≠ snap.id) ∧
        getAllProcesses (startProcess st projectName command cwd port type probe spawn now).2 =
          getAllProcesses st ++ [snap]) ∧
    (spawn (executableOf command (findAvailablePort probe port))
        (argsOf command (findAvailablePort probe port)) cwd = .thrown →
      (startProcess st projectName command cwd port type probe spawn now).1 = .error () ∧
      (startProcess st projectName command cwd port type probe spawn now).2.processes =
        st.processes) := by
  constructor
  · intro cp hcp
    have hrun : startProcess st projectName command cwd port type probe spawn now =
        (.ok (newEntry st projectName command port type probe cp now).snapshot,
         { processes := mapSet st.processes (newEntry st projectName command port type probe cp now),
           nextProcessId := st.nextProcessId + 1 }) := by
      unfold startProcess
      rw [hcp]
    refine ⟨(newEntry st projectName command port type probe cp now).snapshot,
      by rw [hrun], rfl, rfl, rfl, ?_, ?_⟩
    · intro e he
      exact hfresh e he
    · rw [hrun]
      unfold getAllProcesses
      rw [mapSet_fresh st.processes _ (fun x hx => hfresh x hx), List.map_append]
      rfl
  · intro hthrown
    have hrun : startProcess st projectName command cwd port type probe spawn now =
        (.error (), { st with nextProcessId := st.nextProcessId + 1 }) := by
      unfold startProcess
      rw [hthrown]
    exact ⟨by rw [hrun], by rw [hrun]⟩

/-- Witness for C5 at a concrete input: starting from an empty registry
with an always-free probe and a successful spawn. -/
theorem startProcess_registration_witness :
    ∃ snap,
      (startProcess ⟨[], 1⟩ "demo" "npm run dev -- --port $PORT" "/tmp" 4000 .frontend
          (fun _ => .listening) (fun _ _ _ => .ok (some 7)) 0).1 = .ok snap ∧
      snap.status = .running ∧
      snap.port = findAvailablePort (fun _ => .listening) 4000 ∧
      snap.id = procId 1 ∧
      (∀ e ∈ ([] : List ProcEntry), e.id ≠ snap.id) ∧
      getAllProcesses (startProcess ⟨[], 1⟩ "demo" "npm run dev -- --port $PORT" "/tmp" 4000
          .frontend (fun _ => .listening) (fun _ _ _ => .ok (some 7)) 0).2 =
        getAllProcesses ⟨[], 1⟩ ++ [snap] :=
  (startProcess_registration ⟨[], 1⟩ "demo" "npm run dev -- --port $PORT" "/tmp" 4000 .frontend
    (fun _ => .listening) (fun _ _ _ => .ok (some 7)) 0 (by simp)).1 (some 7) rfl

/-- Whether `pat` occurs as a contiguous substring of `s`. -/
def hasOccur (pat : List Char) : List Char → Bool
  | [] => pat.isEmpty
  | c :: rest => pat.isPrefixOf (c :: rest) || hasOccur pat rest

/-- Interleave a separator between consecutive segments. -/
def interMany (sep : List Char) : List (List Char) → List Char
  | [] => []
  | [s] => s
  | s :: u :: rest => s ++ sep ++ interMany sep (u :: rest)

theorem replacePort_cons (rep : List Char) (c : Char) (rest : List Char)
    (h : portPat.isPrefixOf (c :: rest) = false) :
    replacePort rep (c :: rest) = c :: replacePort rep rest := by
  rw [replacePort.eq_def]
  split
  · simp_all
  · rename_i rest5 heq
    rw [heq] at h
    simp [portPat, List.isPrefixOf] at h
  · rename_i c2 rest2 hnm heq
    injection heq with hc hrest
    subst hc
    subst hrest
    rfl

theorem replacePort_pat (rep t : List Char) :
    replacePort rep (portPat ++ t) = rep ++ replacePort rep t := rfl

theorem replacePort_of_no_occur (rep s : List Char)
    (h : hasOccur portPat s = false) : replacePort rep s = s := by
  induction s with
  | nil => rfl
  | cons c rest ih =>
    rw [hasOccur, Bool.or_eq_false_iff] at h
    obtain ⟨h1, h2⟩ := h
    rw [replacePort_cons rep c rest h1, ih h2]

theorem portPat_drop_ne_take :
    ∀ m, 1 ≤ m → m ≤ 4 → portPat.drop m ≠ portPat.take (5 - m) := by decide

theorem portPat_not_prefix_spill (s t : List Char) (hs : s ≠ [])
    (h : portPat.isPrefixOf s = false) :
    portPat.isPrefixOf (s ++ (portPat ++ t)) = false := by
  cases hb : portPat.isPrefixOf (s ++ (portPat ++ t)) with
  | false => rfl
  | true =>
    exfalso
    have hpre : portPat <+: s ++ (portPat ++ t) := List.isPrefixOf_iff_prefix.mp hb
    have hlen5 : portPat.length = 5 := rfl
    have heq : portPat = (s ++ (portPat ++ t)).take 5 := by
      have := List.prefix_iff_eq_take.mp hpre
      rwa [hlen5] at this
    rw [List.take_append_eq_append_take] at heq
    by_cases hlen : 5 ≤ s.length
    · have hz : 5 - s.length = 0 := by omega
      rw [hz, List.take_zero, List.append_nil] at heq
      have : portPat <+: s := by
        rw [List.prefix_iff_eq_take, hlen5]
        exact heq
      rw [List.isPrefixOf_iff_prefix.mpr this] at h
      exact absurd h (by simp)
    · have hm1 : 1 ≤ s.length := by
        cases s with
        | nil => exact absurd rfl hs
        | cons a l => simp
      have hm4 : s.length ≤ 4 := by omega
      have htk : (portPat ++ t).take (5 - s.length) = portPat.take (5 - s.length) :=
        List.take_append_of_le_length (by rw [hlen5]; omega)
      rw [htk] at heq
      have htl : (s.take 5).length = s.length := by
        rw [List.length_take]
        omega
      have hdrop := congrArg (List.drop s.length) heq
      rw [List.drop_left' htl] at hdrop
      have hdself : portPat.drop s.length = portPat.take (5 - s.length) := hdrop
      exact portPat_drop_ne_take s.length hm1 hm4 hdself

theorem replacePort_skip_seg (rep s : List Char)
    (h : hasOccur portPat s = false) :
    ∀ t, replacePort rep (s ++ (portPat ++ t)) = s ++ rep ++ replacePort rep t := by
  induction s with
  | nil =>
    intro t
    simp only [List.nil_append]
    rw [replacePort_pat]
  | cons c s' ih =>
    intro t
    rw [hasOccur, Bool.or_eq_false_iff] at h
    obtain ⟨h1, h2⟩ := h
    have hnospill : portPat.isPrefixOf ((c :: s') ++ (portPat ++ t)) = false :=
      portPat_not_prefix_spill (c :: s') t (by simp) h1
    rw [List.cons_append] at hnospill ⊢
    rw [replacePort_cons rep c (s' ++ (portPat ++ t)) hnospill, ih h2 t]
    simp

theorem replacePort_interMany (rep : List Char) (segs : List (List Char))
    (h : ∀ seg ∈ segs, hasOccur portPat seg = false) :
    replacePort rep (interMany portPat segs) = interMany rep segs := by
  induction segs with
  | nil => rfl
  | cons s rest ih =>
    cases rest with
    | nil =>
      show replacePort rep s = s
      exact replacePort_of_no_occur rep s (h s (by simp))
    | cons u rest' =>
      have hs := h s (by simp)
      have hrest : ∀ seg ∈ u :: rest', hasOccur portPat seg = false := by
        intro seg hseg
        exact h seg (by simp [hseg])
      have h1 : interMany portPat (s :: u :: rest') =
          s ++ (portPat ++ interMany portPat (u :: rest')) := by
        rw [interMany]
        simp [List.append_assoc]
      rw [h1, replacePort_skip_seg rep s hs, ih hrest]
      simp [interMany, List.append_assoc]

/-- C6: with every occurrence of `$PORT` realised as a separator between
placeholder-free segments, the spawned command string is the template
with every `$PORT` occurrence replaced by the allocated port written in
decimal; multiple occurrences are all substituted identically. -/
theorem port_substitution_all_occurrences (segs : List (List Char)) (port : Nat)
    (h : ∀ seg ∈ segs, hasOccur portPat seg = false) :
    finalCommand ⟨interMany portPat segs⟩ port = ⟨interMany (Nat.repr port).data segs⟩ :=
  congrArg String.mk (replacePort_interMany (Nat.repr port).data segs h)

/-- Witness for C6 at the spec's concrete example, including a template
with two `$PORT` occurrences. -/
theorem port_substitution_all_occurrences_witness :
    finalCommand "npm run dev -- --port $PORT" 4000 = "npm run dev -- --port 4000" ∧
    finalCommand "serve -p $PORT --proxy http://x:$PORT/" 4000 =
      "serve -p 4000 --proxy http://x:4000/" ∧
    (∀ seg ∈ ["npm run dev -- --port ".data, ([] : List Char)],
      hasOccur portPat seg = false) ∧
    finalCommand ⟨interMany portPat ["npm run dev -- --port ".data, []]⟩ 4000 =
      ⟨interMany (Nat.repr 4000).data ["npm run dev -- --port ".data, []]⟩ :=
  ⟨by decide, by decide, by decide,
   port_substitution_all_occurrences ["npm run dev -- --port ".data, []] 4000 (by decide)⟩

/-- C7 counterexample: the split is on single space characters, not on
whitespace: a run of two spaces inside the command produces an empty
argument token, and a tab does not separate tokens at all. -/
theorem split_single_space_empty_arg :
    argsOf "echo  hi" 3000 = ["", "hi"] ∧
    "" ∈ argsOf "echo  hi" 3000 ∧
    splitOnSpace ['a', '\t', 'b'] = [['a', '\t', 'b']] := by
  refine ⟨by decide, by decide, by decide⟩

/-- C7 (amended): `startProcess` splits the substituted command on every
single space character: the split is total (the pieces joined by single
spaces give back the string) and each piece is space-free, so
consecutive spaces yield empty-string arguments and no other whitespace
separates; the first piece is the executable and the rest the
arguments. -/
theorem splitOnSpace_characterization (cs : List Char) :
    splitOnSpace cs ≠ [] ∧
    interMany [' '] (splitOnSpace cs) = cs ∧
    (∀ t ∈ splitOnSpace cs, ' ' ∉ t) := by
  induction cs with
  | nil =>
    refine ⟨by simp [splitOnSpace], rfl, ?_⟩
    intro t ht
    simp only [splitOnSpace, List.mem_singleton] at ht
    subst ht
    simp
  | cons c rest ih =>
    obtain ⟨hne, hjoin, hfree⟩ := ih
    by_cases hc : c = ' '
    · subst hc
      simp only [splitOnSpace, if_pos rfl]
      refine ⟨by simp, ?_, ?_⟩
      · cases hsp : splitOnSpace rest with
        | nil => exact absurd hsp hne
        | cons t ts =>
          rw [hsp] at hjoin
          simp only [ite_true]
          rw [interMany]
          simpa using hjoin
      · intro t ht
        rcases List.mem_cons.mp ht with h0 | h0
        · subst h0
          simp
        · exact hfree t h0
    · cases hsp : splitOnSpace rest with
      | nil => exact absurd hsp hne
      | cons t ts =>
        have hstep : splitOnSpace (c :: rest) = (c :: t) :: ts := by
          rw [splitOnSpace.eq_def]
          simp only [if_neg hc, hsp]
        rw [hstep]
        rw [hsp] at hjoin hfree
        refine ⟨by simp, ?_, ?_⟩
        · cases ts with
          | nil =>
            have ht : t = rest := by simpa [interMany] using hjoin
            simp [interMany, ht]
          | cons u ts' =>
            rw [interMany] at hjoin ⊢
            rw [List.cons_append, ← hjoin]
            simp [List.append_assoc]
        · intro x hx
          rcases List.mem_cons.mp hx with h0 | h0
          · subst h0
            intro hmem
            rcases List.mem_cons.mp hmem with h1 | h1
            · exact hc h1.symm
            · exact hfree t (by simp) h1
          · exact hfree x (by simp [h0])

/-- Witness for C7 (amended) at a concrete input containing a run of two
spaces. -/
theorem splitOnSpace_characterization_witness :
    splitOnSpace ['a', ' ', ' ', 'b'] ≠ [] ∧
    interMany [' '] (splitOnSpace ['a', ' ', ' ', 'b']) = ['a', ' ', ' ', 'b'] ∧
    (∀ t ∈ splitOnSpace ['a', ' ', ' ', 'b'], ' ' ∉ t) :=
  splitOnSpace_characterization ['a', ' ', ' ', 'b']

end LocalGithub
